import Mathlib

/-!
Shallow embedding of the SoftWireSTM32 software I2C driver
(src/src/SoftWire.cpp, src/src/WireBase.cpp, src/src/SoftWire.h).

The header WireBase.h is not part of the sources; the constants it
declares (the transaction status codes, the read-direction flag
I2C_MSG_READ and the buffer capacity I2C_TXRX_BUFFER_SIZE) are modelled
abstractly: statuses as an inductive type, the capacity as an explicit
parameter `cap`.

The bit-level primitives of SoftWire.cpp are embedded at two levels:
an event trace (one event per primitive invocation, in order) and the
line-operation sequence each primitive performs on the SCL/SDA lines,
exactly as `set_scl` / `set_sda` are called in the source.  The slave
device is a pure oracle supplying the ACK/NACK answer of each
`i2c_get_ack` call and the byte sampled by each `i2c_shift_in`.
-/

namespace SoftWire

/-- Transaction status codes returned by `process` / `endTransmission`.
Modelled from the spec: the numeric values live in the missing
WireBase.h header (`I2C_OK`, `I2C_NACK_ADDR`, `I2C_NACK_DATA`,
`I2C_DATA_TOO_LONG`); only their identity matters here. -/
inductive Status
  | ok
  | nackAddr
  | nackData
  | dataTooLong
deriving DecidableEq, Repr

/-- Modelled from the spec: the read-direction flag `I2C_MSG_READ`
declared in the missing WireBase.h header.  The code only ever compares
`itc_msg.flags` against it, and WireBase stores either `0` or
`I2C_MSG_READ` in `flags`, so any non-zero value is faithful. -/
def I2C_MSG_READ : Nat := 1

/-- `#define I2C_READ 1` (SoftWire.cpp line 56). -/
def I2C_READ : Nat := 1

/-- `#define I2C_WRITE 0` (SoftWire.cpp line 55). -/
def I2C_WRITE : Nat := 0

/-- A single write to one of the two open-drain lines
(`digitalWriteFast` on scl_pin / sda_pin). -/
inductive LineOp
  | setSCL : Bool → LineOp
  | setSDA : Bool → LineOp
deriving DecidableEq, Repr

/-- The driven level of the two lines (`true` = High). -/
structure LineState where
  scl : Bool
  sda : Bool
deriving DecidableEq, Repr

def applyOp : LineState → LineOp → LineState
  | st, .setSCL b => { st with scl := b }
  | st, .setSDA b => { st with sda := b }

def applyOps (st : LineState) (ops : List LineOp) : LineState :=
  ops.foldl applyOp st

/-- One bus-primitive invocation, as performed by `process`. -/
inductive Ev
  | start
  | stop
  | repStart
  | getAck (acked : Bool)
  | sendAck
  | sendNack
  | shiftIn (b : Nat)
  | shiftOut (b : Nat)
deriving DecidableEq, Repr

/-- The line writes each primitive performs, in source order
(SoftWire.cpp lines 82-152).  Reads of the SDA line do not change the
driven state and are represented by the data carried on the event. -/
def evOps : Ev → List LineOp
  | .start => [.setSDA false, .setSCL false]
  | .stop => [.setSDA false, .setSCL true, .setSDA true]
  | .repStart => [.setSDA true, .setSCL true, .setSDA false]
  | .getAck _ => [.setSCL false, .setSDA true, .setSCL true, .setSCL false]
  | .sendAck => [.setSDA false, .setSCL true, .setSCL false]
  | .sendNack => [.setSDA true, .setSCL true, .setSCL false]
  | .shiftIn _ =>
      .setSDA true :: (List.range 8).flatMap (fun _ => [.setSCL true, .setSCL false])
  | .shiftOut v =>
      (List.range 8).flatMap
        (fun i => [.setSDA (Nat.testBit v (7 - i)), .setSCL true, .setSCL false])

/-- Final line state after replaying a trace of primitives. -/
def applyTrace (st : LineState) (tr : List Ev) : LineState :=
  applyOps st (tr.flatMap evOps)

/-- The simulated slave: `acks n` answers the n-th `i2c_get_ack` of the
transaction (n = 0 is the address ACK), `bytes k` is the byte the slave
drives during the k-th `i2c_shift_in`. -/
structure Slave where
  acks : Nat → Bool
  bytes : Nat → Nat

/-- The transaction descriptor `i2c_msg` consumed by `process`
(declared in the missing WireBase.h; fields as used by the sources):
target address, direction flags, requested length, and the staged data
bytes for the write direction. -/
structure I2CMsg where
  addr : Nat
  flags : Nat
  length : Nat
  data : List Nat
deriving DecidableEq, Repr

/-- Result of one `process` call: the returned status, the final
`itc_msg.xferred`, the bytes stored into the receive destination
(read direction), and the trace of bus primitives driven. -/
structure ProcResult where
  status : Status
  xferred : Nat
  rx : List Nat
  trace : List Ev
deriving DecidableEq, Repr

/-- The receive loop of `process` (SoftWire.cpp lines 175-186):
`while (xferred < length) { data[xferred++] = i2c_shift_in();
if (xferred < length) i2c_send_ack(); else i2c_send_nack(); }`.
`k` is the current `xferred`, `rem` the remaining iteration count
`length - k` (made explicit so the recursion is structural).
Returns (received bytes, final xferred, trace of this loop). -/
def readAux (sl : Slave) (len k : Nat) : Nat → List Nat × Nat × List Ev
  | 0 => ([], k, [])
  | rem + 1 =>
      let b := sl.bytes k % 256
      let r := readAux sl len (k + 1) rem
      (b :: r.1, r.2.1,
        Ev.shiftIn b ::
          ((if k + 1 < len then [Ev.sendAck] else [Ev.sendNack]) ++ r.2.2))

/-- The transmit loop of `process` (SoftWire.cpp lines 191-200):
`for (i = 0; i < length; i++) { i2c_shift_out(data[i]);
if (!i2c_get_ack()) { i2c_stop(); return I2C_NACK_DATA; } xferred++; }`.
`i` is the loop counter, `rem` the remaining iteration count
`length - i`.  Returns (status, final xferred, trace of this loop);
on a data NACK the `i2c_stop` is already part of the trace.
(The loop counter is a uint8_t in the source; all call sites bound
the length by the staging-buffer capacity.) -/
def writeAux (sl : Slave) (data : List Nat) (i : Nat) : Nat → Status × Nat × List Ev
  | 0 => (Status.ok, i, [])
  | rem + 1 =>
      let b := data.getD i 0
      if sl.acks (i + 1) then
        let r := writeAux sl data (i + 1) rem
        (r.1, r.2.1, Ev.shiftOut b :: Ev.getAck true :: r.2.2)
      else
        (Status.nackData, i, [Ev.shiftOut b, Ev.getAck false, Ev.stop])

/-- `uint8_t sla_addr = (itc_msg.addr << 1); if (flags == I2C_MSG_READ)
sla_addr |= I2C_READ;` (SoftWire.cpp lines 159-163).  The `% 256` is the
uint8_t truncation of the shifted address. -/
def slaAddr (msg : I2CMsg) : Nat :=
  (msg.addr <<< 1) % 256 |||
    (if msg.flags = I2C_MSG_READ then I2C_READ else 0)

/-- `uint8_t SoftWire::process(uint8_t stop)` (SoftWire.cpp lines
155-208), driving one full transaction against the slave oracle. -/
def process (sl : Slave) (msg : I2CMsg) (sendStop : Bool) : ProcResult :=
  let sla := slaAddr msg
  let pre : List Ev := [Ev.start, Ev.shiftOut sla]
  if !sl.acks 0 then
    ⟨Status.nackAddr, 0, [], pre ++ [Ev.getAck false, Ev.stop]⟩
  else
    let term : Ev := if sendStop then Ev.stop else Ev.repStart
    if msg.flags = I2C_MSG_READ then
      let r := readAux sl msg.length 0 msg.length
      ⟨Status.ok, r.2.1, r.1, pre ++ [Ev.getAck true] ++ r.2.2 ++ [term]⟩
    else
      let r := writeAux sl msg.data 0 msg.length
      match r.1 with
      | Status.nackData =>
          ⟨Status.nackData, r.2.1, [], pre ++ [Ev.getAck true] ++ r.2.2⟩
      | _ =>
          ⟨Status.ok, r.2.1, [], pre ++ [Ev.getAck true] ++ r.2.2 ++ [term]⟩

/-- The buffer/descriptor state of a WireBase instance.  `msg_dataOff`
models the `itc_msg.data` pointer as an offset into the buffer it was
pointed at.  The buffer capacity `I2C_TXRX_BUFFER_SIZE` (declared in
the missing WireBase.h) is passed explicitly as `cap` to the operations
that read it. -/
structure WireState where
  tx_buf : List Nat
  tx_buf_idx : Nat
  tx_buf_overflow : Bool
  rx_buf : List Nat
  rx_buf_idx : Nat
  rx_buf_len : Nat
  msg_addr : Nat
  msg_flags : Nat
  msg_length : Nat
  msg_dataOff : Nat
deriving DecidableEq, Repr

/-- `WireBase::begin` (WireBase.cpp lines 56-61) and the buffer part of
`SoftWire::begin` (SoftWire.cpp lines 224-235; the pin configuration
and driving both lines High are pin-level effects outside this state). -/
def begin (s : WireState) : WireState :=
  { s with tx_buf_idx := 0, tx_buf_overflow := false,
           rx_buf_idx := 0, rx_buf_len := 0 }

/-- `SoftWire::end` (SoftWire.cpp lines 237-247): it only reconfigures
the two pins to INPUT and touches no buffer or descriptor field, so on
this state it is the identity. -/
def endBus (s : WireState) : WireState := s

/-- `WireBase::beginTransmission(uint8_t)` (WireBase.cpp lines 63-68):
sets the descriptor address, points `itc_msg.data` at
`&tx_buf[tx_buf_idx]`, zeroes length and flags.  The `% 256` is the
uint8_t parameter type. -/
def beginTransmission (s : WireState) (slave_address : Nat) : WireState :=
  { s with msg_addr := slave_address % 256,
           msg_dataOff := s.tx_buf_idx,
           msg_length := 0,
           msg_flags := 0 }

/-- `WireBase::write(uint8_t)` (WireBase.cpp lines 108-115). -/
def write (cap : Nat) (s : WireState) (value : Nat) : WireState :=
  if s.tx_buf_idx = cap then
    { s with tx_buf_overflow := true }
  else
    { s with tx_buf := s.tx_buf.set s.tx_buf_idx (value % 256),
             tx_buf_idx := s.tx_buf_idx + 1,
             msg_length := s.msg_length + 1 }

/-- The staged bytes the descriptor points at: `itc_msg.data` is
`&tx_buf[msg_dataOff]` and `itc_msg.length` bytes are consumed. -/
def stagedData (s : WireState) : List Nat :=
  (s.tx_buf.drop s.msg_dataOff).take s.msg_length

/-- `WireBase::endTransmission(void)` (WireBase.cpp lines 74-85):
on overflow return `I2C_DATA_TOO_LONG` without touching the bus;
otherwise run `process()` (= `process(true)`), reset the tx staging
state and return the process status.  Also returns the bus trace. -/
def endTransmission (sl : Slave) (s : WireState) : Status × WireState × List Ev :=
  if s.tx_buf_overflow then
    (Status.dataTooLong, s, [])
  else
    let r := process sl ⟨s.msg_addr, s.msg_flags, s.msg_length, stagedData s⟩ true
    (r.status, { s with tx_buf_idx := 0, tx_buf_overflow := false }, r.trace)

/-- Store `vals` into `buf` starting at offset `off` (models the writes
through the `itc_msg.data` pointer into rx_buf). -/
def setAt (buf : List Nat) (off : Nat) : List Nat → List Nat
  | [] => buf
  | v :: vs => setAt (buf.set off v) (off + 1) vs

/-- `WireBase::requestFrom(uint8_t, int)` (WireBase.cpp lines 90-102):
clamp `num_bytes` to `I2C_TXRX_BUFFER_SIZE` (= `cap`), run a Read
transaction into `&rx_buf[rx_buf_idx]`, add `xferred` to `rx_buf_len`
and return `rx_buf_len`.  Also returns the new state and bus trace. -/
def requestFrom (cap : Nat) (sl : Slave) (s : WireState)
    (address num_bytes : Nat) : Nat × WireState × List Ev :=
  let nb := if num_bytes > cap then cap else num_bytes
  let s1 := { s with msg_addr := address % 256,
                     msg_flags := I2C_MSG_READ,
                     msg_length := nb,
                     msg_dataOff := s.rx_buf_idx }
  let r := process sl ⟨s1.msg_addr, s1.msg_flags, s1.msg_length, []⟩ true
  let s2 := { s1 with rx_buf := setAt s1.rx_buf s1.rx_buf_idx r.rx,
                      rx_buf_len := s1.rx_buf_len + r.xferred,
                      msg_flags := 0 }
  (s2.rx_buf_len, s2, r.trace)

/-- `WireBase::available` (WireBase.cpp lines 139-141):
`rx_buf_len - rx_buf_idx` (truncated subtraction matches the unsigned
source arithmetic on the reachable states, where the cursor never
exceeds the length). -/
def available (s : WireState) : Nat :=
  s.rx_buf_len - s.rx_buf_idx

/-- `WireBase::read` (WireBase.cpp lines 143-155).  Returns the byte
and the new state.  The second branch's `rx_buf_len - 1` is only
reached when `rx_buf_idx ≠ rx_buf_len`, just as in the source. -/
def read (s : WireState) : Nat × WireState :=
  if s.rx_buf_idx = s.rx_buf_len then
    (0, { s with rx_buf_idx := 0, rx_buf_len := 0 })
  else if s.rx_buf_idx = s.rx_buf_len - 1 then
    (s.rx_buf.getD s.rx_buf_idx 0, { s with rx_buf_idx := 0, rx_buf_len := 0 })
  else
    (s.rx_buf.getD s.rx_buf_idx 0, { s with rx_buf_idx := s.rx_buf_idx + 1 })

/-- Event classifiers used to count bus operations in a trace. -/
def isShiftIn : Ev → Bool
  | .shiftIn _ => true
  | _ => false

def isShiftOut : Ev → Bool
  | .shiftOut _ => true
  | _ => false

def isSendAck : Ev → Bool
  | .sendAck => true
  | _ => false

def isSendNack : Ev → Bool
  | .sendNack => true
  | _ => false

/-- The expected receive-loop trace: for each of the `len` bytes, one
shift-in carrying the slave's byte, followed by an ACK if more bytes
remain and a NACK after the last. -/
def readEvs (bytes : Nat → Nat) (len : Nat) : List Ev :=
  (List.range len).flatMap
    (fun j => Ev.shiftIn (bytes j % 256) ::
      (if j + 1 < len then [Ev.sendAck] else [Ev.sendNack]))

/-! Concrete fixtures used to evaluate the theorems on explicit inputs. -/

/-- A slave that never acknowledges anything. -/
def slNack : Slave := ⟨fun _ => false, fun _ => 0⟩

/-- A slave that acknowledges everything; it drives byte `k + 65` on
the k-th shift-in. -/
def slTrue : Slave := ⟨fun _ => true, fun k => k + 65⟩

/-- A slave that acknowledges the address and the first two data bytes
(ACK indices 0, 1, 2) and NACKs from index 3 on. -/
def slK2 : Slave := ⟨fun i => decide (i ≤ 2), fun _ => 0⟩

/-- A read-direction slave for the `requestFrom` scenarios: always
ACKs, drives byte `j + 10` on the j-th shift-in. -/
def slC8 : Slave := ⟨fun _ => true, fun j => j + 10⟩

def msgC2 : I2CMsg := ⟨80, 0, 2, [1, 2]⟩

def msgC3 : I2CMsg := ⟨34, 0, 4, [5, 6, 7, 8]⟩

def msgC4r : I2CMsg := ⟨80, 1, 0, []⟩

def msgC4w : I2CMsg := ⟨80, 0, 1, [7]⟩

def msgC5 : I2CMsg := ⟨16, 1, 3, []⟩

/-- An all-zero WireBase state. -/
def ws0 : WireState := ⟨[], 0, false, [], 0, 0, 0, 0, 0, 0⟩

def wsC6a : WireState := { ws0 with tx_buf := [9, 9], tx_buf_idx := 2 }

def wsC6b : WireState := { ws0 with tx_buf_overflow := true }

def wsC7 : WireState :=
  { ws0 with tx_buf := [0, 0, 0, 0], tx_buf_idx := 3, tx_buf_overflow := true }

def wsC7w : WireState := { ws0 with tx_buf := [1, 2], tx_buf_idx := 2 }

def wsC8 : WireState := { ws0 with rx_buf := [7, 7], rx_buf_idx := 1, rx_buf_len := 1 }

def wsC9 : WireState := { ws0 with rx_buf := [3, 4], rx_buf_idx := 2, rx_buf_len := 2 }

def wsC10 : WireState := { ws0 with rx_buf := [3, 4], rx_buf_idx := 1, rx_buf_len := 2 }

/-- Both lines idle High. -/
def lsIdle : LineState := ⟨true, true⟩

/-! Helper lemmas about traces and line state. -/

theorem applyOps_append (st : LineState) (xs ys : List LineOp) :
    applyOps st (xs ++ ys) = applyOps (applyOps st xs) ys := by
  simp [applyOps, List.foldl_append]

theorem applyTrace_append_single (st : LineState) (tr : List Ev) (e : Ev) :
    applyTrace st (tr ++ [e]) = applyOps (applyTrace st tr) (evOps e) := by
  simp [applyTrace, applyOps_append]

theorem scl_after_stop (st : LineState) :
    (applyOps st (evOps Ev.stop)).scl = true := rfl

theorem scl_after_repStart (st : LineState) :
    (applyOps st (evOps Ev.repStart)).scl = true := rfl

theorem scl_of_defined_end (st : LineState) (tr t : List Ev)
    (h : tr = t ++ [Ev.stop] ∨ tr = t ++ [Ev.repStart]) :
    (applyTrace st tr).scl = true := by
  rcases h with h | h <;> rw [h, applyTrace_append_single]
  · exact scl_after_stop _
  · exact scl_after_repStart _

/-! Helper lemmas about the receive loop. -/

theorem readAux_xferred (sl : Slave) (len : Nat) :
    ∀ rem k, (readAux sl len k rem).2.1 = k + rem := by
  intro rem
  induction rem with
  | zero => intro k; simp [readAux]
  | succ m ih => intro k; simp [readAux, ih (k + 1)]; omega

theorem readAux_rx_length (sl : Slave) (len : Nat) :
    ∀ rem k, (readAux sl len k rem).1.length = rem := by
  intro rem
  induction rem with
  | zero => intro k; simp [readAux]
  | succ m ih => intro k; simp [readAux, ih (k + 1)]

theorem readAux_rx_getD (sl : Slave) (len : Nat) :
    ∀ rem k j, j < rem →
      (readAux sl len k rem).1.getD j 0 = sl.bytes (k + j) % 256 := by
  intro rem
  induction rem with
  | zero => intro k j hj; omega
  | succ m ih =>
    intro k j hj
    cases j with
    | zero => simp [readAux]
    | succ j' =>
      have := ih (k + 1) j' (by omega)
      simp only [readAux, List.getD_cons_succ]
      rw [this]
      congr 2
      omega

theorem readAux_trace (sl : Slave) (len : Nat) :
    ∀ rem k,
      (readAux sl len k rem).2.2 =
        (List.range' k rem).flatMap
          (fun j => Ev.shiftIn (sl.bytes j % 256) ::
            (if j + 1 < len then [Ev.sendAck] else [Ev.sendNack])) := by
  intro rem
  induction rem with
  | zero => intro k; simp [readAux]
  | succ m ih =>
    intro k
    simp [readAux, ih (k + 1), List.range'_succ]

theorem readAux_count_shiftIn (sl : Slave) (len : Nat) :
    ∀ rem k, ((readAux sl len k rem).2.2.countP isShiftIn) = rem := by
  intro rem
  induction rem with
  | zero => intro k; simp [readAux]
  | succ m ih =>
    intro k
    by_cases hk : k + 1 < len <;>
      simp [readAux, hk, List.countP_cons, List.countP_append, ih (k + 1),
        isShiftIn, isSendAck, isSendNack]

theorem readAux_count_sendAck (sl : Slave) (len : Nat) :
    ∀ rem k, k + rem = len →
      ((readAux sl len k rem).2.2.countP isSendAck) = rem - 1 := by
  intro rem
  induction rem with
  | zero => intro k _; simp [readAux]
  | succ m ih =>
    intro k hk
    by_cases h1 : k + 1 < len
    · have hm := ih (k + 1) (by omega)
      simp [readAux, h1, List.countP_cons, List.countP_append, hm,
        isShiftIn, isSendAck]
      omega
    · have hm : m = 0 := by omega
      subst hm
      simp [readAux, h1, List.countP_cons, isSendAck, isSendNack, isShiftIn]

theorem readAux_count_sendNack (sl : Slave) (len : Nat) :
    ∀ rem k, k + rem = len →
      ((readAux sl len k rem).2.2.countP isSendNack) = min rem 1 := by
  intro rem
  induction rem with
  | zero => intro k _; simp [readAux]
  | succ m ih =>
    intro k hk
    by_cases h1 : k + 1 < len
    · have hm := ih (k + 1) (by omega)
      simp [readAux, h1, List.countP_cons, List.countP_append, hm,
        isShiftIn, isSendNack]
      omega
    · have hm : m = 0 := by omega
      subst hm
      simp [readAux, h1, List.countP_cons, isSendNack, isShiftIn]

/-! Helper lemmas about the transmit loop. -/

theorem writeAux_nack_ends_stop (sl : Slave) (data : List Nat) :
    ∀ rem i, (writeAux sl data i rem).1 = Status.nackData →
      ∃ t, (writeAux sl data i rem).2.2 = t ++ [Ev.stop] := by
  intro rem
  induction rem with
  | zero => intro i h; simp [writeAux] at h
  | succ m ih =>
    intro i h
    by_cases ha : sl.acks (i + 1) = true
    · simp only [writeAux, ha, if_true] at h ⊢
      obtain ⟨t, ht⟩ := ih (i + 1) h
      exact ⟨Ev.shiftOut (data.getD i 0) :: Ev.getAck true :: t, by simp [ht]⟩
    · exact ⟨[Ev.shiftOut (data.getD i 0), Ev.getAck false],
        by simp [writeAux, ha]⟩

theorem writeAux_nack_at (sl : Slave) (data : List Nat) (K : Nat)
    (hack : ∀ j, j ≤ K → sl.acks j = true) (hnack : sl.acks (K + 1) = false) :
    ∀ rem i, i ≤ K → K < i + rem →
      (writeAux sl data i rem).1 = Status.nackData ∧
      (writeAux sl data i rem).2.1 = K ∧
      ∃ t, (writeAux sl data i rem).2.2 = t ++ [Ev.stop] := by
  intro rem
  induction rem with
  | zero => intro i h1 h2; omega
  | succ m ih =>
    intro i h1 h2
    rcases Nat.lt_or_ge i K with hi | hi
    · have ha : sl.acks (i + 1) = true := hack _ (by omega)
      have hrec := ih (i + 1) (by omega) (by omega)
      simp only [writeAux, ha, if_true]
      refine ⟨hrec.1, hrec.2.1, ?_⟩
      obtain ⟨t, ht⟩ := hrec.2.2
      exact ⟨Ev.shiftOut (data.getD i 0) :: Ev.getAck true :: t, by simp [ht]⟩
    · have hieq : i = K := by omega
      subst hieq
      have hcond : ¬ (sl.acks (i + 1) = true) := by simp [hnack]
      simp only [writeAux, hcond, if_false]
      exact ⟨rfl, rfl, ⟨[Ev.shiftOut (data.getD i 0), Ev.getAck false], rfl⟩⟩

/-- Every `process` trace starts with the start condition followed by
the address shift-out, and ends with either a stop or a repeated-start
condition. -/
theorem process_trace_shape (sl : Slave) (msg : I2CMsg) (sendStop : Bool) :
    ∃ mid,
      (process sl msg sendStop).trace
          = Ev.start :: Ev.shiftOut (slaAddr msg) :: (mid ++ [Ev.stop]) ∨
      (process sl msg sendStop).trace
          = Ev.start :: Ev.shiftOut (slaAddr msg) :: (mid ++ [Ev.repStart]) := by
  cases h0 : sl.acks 0 with
  | false => exact ⟨[Ev.getAck false], Or.inl (by simp [process, h0])⟩
  | true =>
    by_cases hf : msg.flags = I2C_MSG_READ
    · refine ⟨Ev.getAck true :: (readAux sl msg.length 0 msg.length).2.2, ?_⟩
      cases hs : sendStop
      · right; simp [process, h0, hf, hs]
      · left; simp [process, h0, hf, hs]
    · cases hw : (writeAux sl msg.data 0 msg.length).1 with
      | nackData =>
        obtain ⟨t, ht⟩ := writeAux_nack_ends_stop sl msg.data msg.length 0 hw
        refine ⟨Ev.getAck true :: t, Or.inl ?_⟩
        simp [process, h0, hf, hw, ht]
      | ok =>
        refine ⟨Ev.getAck true :: (writeAux sl msg.data 0 msg.length).2.2, ?_⟩
        cases hs : sendStop
        · right; simp [process, h0, hf, hw, hs]
        · left; simp [process, h0, hf, hw, hs]
      | nackAddr =>
        refine ⟨Ev.getAck true :: (writeAux sl msg.data 0 msg.length).2.2, ?_⟩
        cases hs : sendStop
        · right; simp [process, h0, hf, hw, hs]
        · left; simp [process, h0, hf, hw, hs]
      | dataTooLong =>
        refine ⟨Ev.getAck true :: (writeAux sl msg.data 0 msg.length).2.2, ?_⟩
        cases hs : sendStop
        · right; simp [process, h0, hf, hw, hs]
        · left; simp [process, h0, hf, hw, hs]

/-- C1: every transaction driven by `process` (any direction, any
length, any sequence of simulated ACK/NACK responses) drives the start
condition and then, on every return path and for every returned
status, drives either a stop condition or a repeated-start condition
before returning; consequently the clock line is never left driven low
after `process` returns. -/
theorem c1_process_leaves_bus_defined (sl : Slave) (msg : I2CMsg)
    (sendStop : Bool) (st : LineState) :
    (∃ rest, (process sl msg sendStop).trace = Ev.start :: rest) ∧
    (∃ t, (process sl msg sendStop).trace = t ++ [Ev.stop] ∨
          (process sl msg sendStop).trace = t ++ [Ev.repStart]) ∧
    (applyTrace st (process sl msg sendStop).trace).scl = true := by
  obtain ⟨mid, hmid⟩ := process_trace_shape sl msg sendStop
  rcases hmid with h | h
  · refine ⟨⟨_, h⟩, ⟨Ev.start :: Ev.shiftOut (slaAddr msg) :: mid, Or.inl (by simp [h])⟩, ?_⟩
    exact scl_of_defined_end st _ (Ev.start :: Ev.shiftOut (slaAddr msg) :: mid)
      (Or.inl (by simp [h]))
  · refine ⟨⟨_, h⟩, ⟨Ev.start :: Ev.shiftOut (slaAddr msg) :: mid, Or.inr (by simp [h])⟩, ?_⟩
    exact scl_of_defined_end st _ (Ev.start :: Ev.shiftOut (slaAddr msg) :: mid)
      (Or.inr (by simp [h]))

/-- C2: if the slave does not acknowledge the address byte, `process`
drives the stop primitive and returns `NackOnAddress` with
`xferred = 0`, having shifted out only the address byte and shifted in
nothing. -/
theorem c2_nack_on_address (sl : Slave) (msg : I2CMsg) (sendStop : Bool)
    (h : sl.acks 0 = false) :
    process sl msg sendStop =
      ⟨Status.nackAddr, 0, [],
        [Ev.start, Ev.shiftOut (slaAddr msg), Ev.getAck false, Ev.stop]⟩ ∧
    ((process sl msg sendStop).trace.countP isShiftIn) = 0 ∧
    ((process sl msg sendStop).trace.countP isShiftOut) = 1 := by
  have h1 : process sl msg sendStop =
      ⟨Status.nackAddr, 0, [],
        [Ev.start, Ev.shiftOut (slaAddr msg), Ev.getAck false, Ev.stop]⟩ := by
    simp [process, h]
  refine ⟨h1, ?_, ?_⟩ <;> rw [h1]
  · simp [List.countP_cons, isShiftIn]
  · simp [List.countP_cons, isShiftOut]

theorem c2_witness :
    slNack.acks 0 = false ∧
    (process slNack msgC2 true =
      ⟨Status.nackAddr, 0, [],
        [Ev.start, Ev.shiftOut (slaAddr msgC2), Ev.getAck false, Ev.stop]⟩ ∧
    ((process slNack msgC2 true).trace.countP isShiftIn) = 0 ∧
    ((process slNack msgC2 true).trace.countP isShiftOut) = 1) :=
  ⟨rfl, c2_nack_on_address slNack msgC2 true rfl⟩

/-- C3: for a write of `msg.length` staged bytes where the slave
acknowledges the address and the first `K` bytes (ACK indices `0..K`)
and NACKs byte `K+1` (ACK index `K+1`), `process` returns `NackOnData`
with `xferred = K`, and a stop condition is driven before returning. -/
theorem c3_nack_on_data (sl : Slave) (msg : I2CMsg) (sendStop : Bool) (K : Nat)
    (hf : ¬ msg.flags = I2C_MSG_READ) (hK : K < msg.length)
    (hack : ∀ j, j ≤ K → sl.acks j = true) (hnack : sl.acks (K + 1) = false) :
    (process sl msg sendStop).status = Status.nackData ∧
    (process sl msg sendStop).xferred = K ∧
    ∃ t, (process sl msg sendStop).trace = t ++ [Ev.stop] := by
  have h0 : sl.acks 0 = true := hack 0 (Nat.zero_le K)
  have hw := writeAux_nack_at sl msg.data K hack hnack msg.length 0
    (Nat.zero_le K) (by omega)
  obtain ⟨hw1, hw2, t, hw3⟩ := hw
  refine ⟨by simp [process, h0, hf, hw1], by simp [process, h0, hf, hw1, hw2], ?_⟩
  exact ⟨Ev.start :: Ev.shiftOut (slaAddr msg) :: Ev.getAck true :: t,
    by simp [process, h0, hf, hw1, hw3]⟩

theorem c3_witness :
    (¬ msgC3.flags = I2C_MSG_READ) ∧ 2 < msgC3.length ∧
    ((process slK2 msgC3 true).status = Status.nackData ∧
     (process slK2 msgC3 true).xferred = 2 ∧
     ∃ t, (process slK2 msgC3 true).trace = t ++ [Ev.stop]) :=
  ⟨by decide, by decide,
    c3_nack_on_data slK2 msgC3 true 2 (by decide) (by decide)
      (fun j hj => decide_eq_true hj) rfl⟩

/-- C4: for every 7-bit address (0-127), the address byte shifted out
on the bus (the second event of the trace) is the address shifted left
one bit with the low bit 1 for a Read message and 0 for a Write
message. -/
theorem c4_address_encoding (sl : Slave) (msg : I2CMsg) (sendStop : Bool)
    (h : msg.addr ≤ 127) :
    (msg.flags = I2C_MSG_READ →
      (process sl msg sendStop).trace[1]? =
        some (Ev.shiftOut ((msg.addr <<< 1) ||| 1))) ∧
    (msg.flags = I2C_WRITE →
      (process sl msg sendStop).trace[1]? =
        some (Ev.shiftOut ((msg.addr <<< 1) ||| 0))) := by
  have hmod : (msg.addr <<< 1) % 256 = msg.addr <<< 1 := by
    apply Nat.mod_eq_of_lt
    rw [Nat.shiftLeft_eq, pow_one]
    omega
  obtain ⟨mid, hmid⟩ := process_trace_shape sl msg sendStop
  have hget : (process sl msg sendStop).trace[1]? =
      some (Ev.shiftOut (slaAddr msg)) := by
    rcases hmid with hsh | hsh <;> rw [hsh] <;> simp
  constructor
  · intro hr
    rw [hget, slaAddr, hr, hmod]
    simp [I2C_READ]
  · intro hw
    rw [hget, slaAddr, hw, hmod]
    simp [I2C_MSG_READ, I2C_WRITE]

theorem c4_witness :
    (msgC4r.addr ≤ 127 ∧ msgC4w.addr ≤ 127) ∧
    ((msgC4r.flags = I2C_MSG_READ →
        (process slTrue msgC4r true).trace[1]? =
          some (Ev.shiftOut ((msgC4r.addr <<< 1) ||| 1))) ∧
     (msgC4r.flags = I2C_WRITE →
        (process slTrue msgC4r true).trace[1]? =
          some (Ev.shiftOut ((msgC4r.addr <<< 1) ||| 0)))) ∧
    ((msgC4w.flags = I2C_MSG_READ →
        (process slTrue msgC4w true).trace[1]? =
          some (Ev.shiftOut ((msgC4w.addr <<< 1) ||| 1))) ∧
     (msgC4w.flags = I2C_WRITE →
        (process slTrue msgC4w true).trace[1]? =
          some (Ev.shiftOut ((msgC4w.addr <<< 1) ||| 0)))) :=
  ⟨⟨by decide, by decide⟩,
    c4_address_encoding slTrue msgC4r true (by decide),
    c4_address_encoding slTrue msgC4w true (by decide)⟩

/-- C5: for a read transaction whose address is acknowledged, `process`
performs exactly `length` shift-in operations, sends an ACK after each
received byte except the last and a NACK after the last, stores the
i-th received byte at index i of the receive destination, and the loop
terminates with `xferred = length`. -/
theorem c5_read_termination (sl : Slave) (msg : I2CMsg) (sendStop : Bool)
    (hf : msg.flags = I2C_MSG_READ) (h0 : sl.acks 0 = true) :
    (process sl msg sendStop).status = Status.ok ∧
    (process sl msg sendStop).xferred = msg.length ∧
    (process sl msg sendStop).rx.length = msg.length ∧
    (∀ i, i < msg.length →
      (process sl msg sendStop).rx.getD i 0 = sl.bytes i % 256) ∧
    (process sl msg sendStop).trace =
      Ev.start :: Ev.shiftOut (slaAddr msg) :: Ev.getAck true ::
        (readEvs sl.bytes msg.length ++
          [if sendStop then Ev.stop else Ev.repStart]) ∧
    (process sl msg sendStop).trace.countP isShiftIn = msg.length ∧
    (process sl msg sendStop).trace.countP isSendAck = msg.length - 1 ∧
    (process sl msg sendStop).trace.countP isSendNack = min msg.length 1 := by
  have hproc : process sl msg sendStop =
      ⟨Status.ok, (readAux sl msg.length 0 msg.length).2.1,
        (readAux sl msg.length 0 msg.length).1,
        Ev.start :: Ev.shiftOut (slaAddr msg) :: Ev.getAck true ::
          ((readAux sl msg.length 0 msg.length).2.2 ++
            [if sendStop then Ev.stop else Ev.repStart])⟩ := by
    simp [process, h0, hf]
  have htr : (readAux sl msg.length 0 msg.length).2.2 =
      readEvs sl.bytes msg.length := by
    rw [readAux_trace, readEvs, List.range_eq_range']
  have hterm : ∀ p : Ev → Bool, p Ev.stop = false → p Ev.repStart = false →
      (List.countP p [if sendStop then Ev.stop else Ev.repStart]) = 0 := by
    intro p hs hr
    cases sendStop <;> simp [List.countP_cons, hs, hr]
  refine ⟨by rw [hproc], ?_, ?_, ?_, ?_, ?_, ?_, ?_⟩
  · rw [hproc]
    simpa using readAux_xferred sl msg.length msg.length 0
  · rw [hproc]
    exact readAux_rx_length sl msg.length msg.length 0
  · intro i hi
    rw [hproc]
    simpa using readAux_rx_getD sl msg.length msg.length 0 i hi
  · rw [hproc, htr]
  · rw [hproc]
    simp only [ProcResult.trace, List.countP_cons, List.countP_append,
      isShiftIn, hterm isShiftIn rfl rfl]
    simpa [isShiftIn] using readAux_count_shiftIn sl msg.length msg.length 0
  · rw [hproc]
    simp only [ProcResult.trace, List.countP_cons, List.countP_append,
      isSendAck, hterm isSendAck rfl rfl]
    simpa [isSendAck] using
      readAux_count_sendAck sl msg.length msg.length 0 (by omega)
  · rw [hproc]
    simp only [ProcResult.trace, List.countP_cons, List.countP_append,
      isSendNack, hterm isSendNack rfl rfl]
    simpa [isSendNack] using
      readAux_count_sendNack sl msg.length msg.length 0 (by omega)

theorem c5_witness :
    msgC5.flags = I2C_MSG_READ ∧ slTrue.acks 0 = true ∧
    ((process slTrue msgC5 true).status = Status.ok ∧
     (process slTrue msgC5 true).xferred = msgC5.length ∧
     (process slTrue msgC5 true).rx.length = msgC5.length ∧
     (∀ i, i < msgC5.length →
       (process slTrue msgC5 true).rx.getD i 0 = slTrue.bytes i % 256) ∧
     (process slTrue msgC5 true).trace =
       Ev.start :: Ev.shiftOut (slaAddr msgC5) :: Ev.getAck true ::
         (readEvs slTrue.bytes msgC5.length ++ [Ev.stop]) ∧
     (process slTrue msgC5 true).trace.countP isShiftIn = msgC5.length ∧
     (process slTrue msgC5 true).trace.countP isSendAck = msgC5.length - 1 ∧
     (process slTrue msgC5 true).trace.countP isSendNack = min msgC5.length 1) :=
  ⟨rfl, rfl, c5_read_termination slTrue msgC5 true rfl rfl⟩

/-- C6: staging a byte when the transmit index already equals the
buffer capacity only sets the sticky overflow flag (buffer, index and
message length unchanged), and committing with the overflow flag set
returns `LengthExceeded` with an empty bus trace, so no line
transition is driven. -/
theorem c6_overflow_fail_soft (cap v : Nat) (s t : WireState) (sl : Slave)
    (st : LineState) (h : s.tx_buf_idx = cap) (h2 : t.tx_buf_overflow = true) :
    write cap s v = { s with tx_buf_overflow := true } ∧
    endTransmission sl t = (Status.dataTooLong, t, []) ∧
    applyTrace st (endTransmission sl t).2.2 = st := by
  have he : endTransmission sl t = (Status.dataTooLong, t, []) := by
    simp [endTransmission, h2]
  exact ⟨by simp [write, h], he, by rw [he]; rfl⟩

theorem c6_witness :
    (wsC6a.tx_buf_idx = 2 ∧ wsC6b.tx_buf_overflow = true) ∧
    (write 2 wsC6a 5 = { wsC6a with tx_buf_overflow := true } ∧
     endTransmission slTrue wsC6b = (Status.dataTooLong, wsC6b, []) ∧
     applyTrace lsIdle (endTransmission slTrue wsC6b).2.2 = lsIdle) :=
  ⟨⟨by decide, by decide⟩,
    c6_overflow_fail_soft 2 5 wsC6a wsC6b slTrue lsIdle (by decide) (by decide)⟩

/-- C7 counterexample: on a state with a non-zero transmit index and
the overflow flag set, `beginTransmission` leaves both unchanged, so
the claim that it resets the transmit index and the overflow flag is
false. -/
theorem c7_counterexample :
    ¬ ((beginTransmission wsC7 5).tx_buf_idx = 0 ∧
       (beginTransmission wsC7 5).tx_buf_overflow = false) := by decide

/-- C7 (amended): `beginTransmission` only resets the message
descriptor (length, flags, data pointer, address) and leaves the
transmit index and the overflow flag unchanged; those are reset by
`begin` and, after a non-overflow commit, by `endTransmission`, while
`end` only reconfigures the pins and resets nothing. -/
theorem c7_amended_reset_behaviour (s : WireState) (a : Nat) (sl : Slave)
    (hov : s.tx_buf_overflow = false) :
    (beginTransmission s a).tx_buf_idx = s.tx_buf_idx ∧
    (beginTransmission s a).tx_buf_overflow = s.tx_buf_overflow ∧
    (beginTransmission s a).msg_length = 0 ∧
    (beginTransmission s a).msg_flags = 0 ∧
    (beginTransmission s a).msg_addr = a % 256 ∧
    (beginTransmission s a).msg_dataOff = s.tx_buf_idx ∧
    (begin s).tx_buf_idx = 0 ∧
    (begin s).tx_buf_overflow = false ∧
    endBus s = s ∧
    (endTransmission sl s).2.1.tx_buf_idx = 0 ∧
    (endTransmission sl s).2.1.tx_buf_overflow = false := by
  refine ⟨rfl, rfl, rfl, rfl, rfl, rfl, rfl, rfl, rfl, ?_, ?_⟩ <;>
    simp [endTransmission, hov]

theorem c7_witness :
    ws0.tx_buf_overflow = false ∧
    ((beginTransmission ws0 7).tx_buf_idx = ws0.tx_buf_idx ∧
     (beginTransmission ws0 7).tx_buf_overflow = ws0.tx_buf_overflow ∧
     (beginTransmission ws0 7).msg_length = 0 ∧
     (beginTransmission ws0 7).msg_flags = 0 ∧
     (beginTransmission ws0 7).msg_addr = 7 % 256 ∧
     (beginTransmission ws0 7).msg_dataOff = ws0.tx_buf_idx ∧
     (begin ws0).tx_buf_idx = 0 ∧
     (begin ws0).tx_buf_overflow = false ∧
     endBus ws0 = ws0 ∧
     (endTransmission slTrue ws0).2.1.tx_buf_idx = 0 ∧
     (endTransmission slTrue ws0).2.1.tx_buf_overflow = false) :=
  ⟨rfl, c7_amended_reset_behaviour ws0 7 slTrue rfl⟩

/-- C8 counterexample: with capacity 2, read cursor 1 and available
length 1, `requestFrom(1, 5)` runs the transaction with length 2 (the
full capacity, although only 1 slot of remaining capacity is left) and
returns 3, although only 2 bytes are available for consumption; so the
claim's clamping to remaining capacity and its return value are both
false. -/
theorem c8_counterexample :
    ¬ ((requestFrom 2 slC8 wsC8 1 5).2.1.msg_length ≤ 2 - wsC8.rx_buf_idx ∧
       (requestFrom 2 slC8 wsC8 1 5).1 =
         available (requestFrom 2 slC8 wsC8 1 5).2.1) ∧
    (requestFrom 2 slC8 wsC8 1 5).2.1.msg_length = 2 ∧
    2 - wsC8.rx_buf_idx = 1 ∧
    (requestFrom 2 slC8 wsC8 1 5).1 = 3 ∧
    available (requestFrom 2 slC8 wsC8 1 5).2.1 = 2 := by decide

/-- C8 (amended): `requestFrom` clamps the requested count to the
total buffer capacity (not to the remaining capacity), runs the
transaction with direction Read, increases `rx_buf_len` by exactly the
transferred count, and returns the new `rx_buf_len` (which equals the
count of bytes available for consumption only when the read cursor is
0). -/
theorem c8_amended_requestFrom (cap : Nat) (sl : Slave) (s : WireState)
    (a n : Nat) :
    (requestFrom cap sl s a n).1 = (requestFrom cap sl s a n).2.1.rx_buf_len ∧
    (requestFrom cap sl s a n).2.1.rx_buf_len =
      s.rx_buf_len + (process sl ⟨a % 256, I2C_MSG_READ, min n cap, []⟩ true).xferred ∧
    (requestFrom cap sl s a n).2.1.msg_length = min n cap ∧
    (requestFrom cap sl s a n).2.2 =
      (process sl ⟨a % 256, I2C_MSG_READ, min n cap, []⟩ true).trace ∧
    (s.rx_buf_idx = 0 →
      (requestFrom cap sl s a n).1 = available (requestFrom cap sl s a n).2.1) := by
  have hnb : (if n > cap then cap else n) = min n cap := by split <;> omega
  refine ⟨rfl, ?_, ?_, ?_, ?_⟩
  · simp [requestFrom, hnb]
  · simp [requestFrom, hnb]
  · simp [requestFrom, hnb]
  · intro h
    simp [requestFrom, available, h]

theorem c8_witness :
    ws0.rx_buf_idx = 0 ∧
    ((requestFrom 2 slC8 ws0 3 5).1 = (requestFrom 2 slC8 ws0 3 5).2.1.rx_buf_len ∧
     (requestFrom 2 slC8 ws0 3 5).2.1.rx_buf_len =
       ws0.rx_buf_len + (process slC8 ⟨3 % 256, I2C_MSG_READ, min 5 2, []⟩ true).xferred ∧
     (requestFrom 2 slC8 ws0 3 5).2.1.msg_length = min 5 2 ∧
     (requestFrom 2 slC8 ws0 3 5).2.2 =
       (process slC8 ⟨3 % 256, I2C_MSG_READ, min 5 2, []⟩ true).trace ∧
     (ws0.rx_buf_idx = 0 →
       (requestFrom 2 slC8 ws0 3 5).1 = available (requestFrom 2 slC8 ws0 3 5).2.1)) :=
  ⟨rfl, c8_amended_requestFrom 2 slC8 ws0 3 5⟩

/-- C9: when all available bytes have been consumed (cursor = length),
one further `read` returns the sentinel 0 and resets cursor and length
to 0, so a subsequent `available` returns 0; and `available` always
equals the available length minus the read cursor. -/
theorem c9_drain_semantics (s : WireState) (h : s.rx_buf_idx = s.rx_buf_len) :
    read s = (0, { s with rx_buf_idx := 0, rx_buf_len := 0 }) ∧
    available (read s).2 = 0 ∧
    (∀ t : WireState, available t = t.rx_buf_len - t.rx_buf_idx) := by
  have hr : read s = (0, { s with rx_buf_idx := 0, rx_buf_len := 0 }) := by
    simp [read, h]
  exact ⟨hr, by rw [hr]; rfl, fun t => rfl⟩

theorem c9_witness :
    wsC9.rx_buf_idx = wsC9.rx_buf_len ∧
    (read wsC9 = (0, { wsC9 with rx_buf_idx := 0, rx_buf_len := 0 }) ∧
     available (read wsC9).2 = 0 ∧
     (∀ t : WireState, available t = t.rx_buf_len - t.rx_buf_idx)) :=
  ⟨rfl, c9_drain_semantics wsC9 rfl⟩

/-- C10: when exactly one unconsumed byte remains (cursor + 1 =
length), `read` returns that buffered byte and resets both cursor and
length to 0; and after every `read` from a state with cursor ≤ length,
either the cursor is strictly below the length or both are 0, so the
cursor never exceeds the length and `available` cannot underflow. -/
theorem c10_last_byte (s : WireState) (h1 : s.rx_buf_idx + 1 = s.rx_buf_len) :
    read s = (s.rx_buf.getD s.rx_buf_idx 0,
      { s with rx_buf_idx := 0, rx_buf_len := 0 }) ∧
    (∀ t : WireState, t.rx_buf_idx ≤ t.rx_buf_len →
      ((read t).2.rx_buf_idx < (read t).2.rx_buf_len ∨
        ((read t).2.rx_buf_idx = 0 ∧ (read t).2.rx_buf_len = 0)) ∧
      (read t).2.rx_buf_idx ≤ (read t).2.rx_buf_len) := by
  constructor
  · have hne : ¬ (s.rx_buf_idx = s.rx_buf_len) := by omega
    have he : s.rx_buf_idx = s.rx_buf_len - 1 := by omega
    unfold read
    rw [if_neg hne, if_pos he]
  · intro t ht
    by_cases hA : t.rx_buf_idx = t.rx_buf_len
    · simp [read, hA]
    · by_cases hB : t.rx_buf_idx = t.rx_buf_len - 1
      · unfold read
        rw [if_neg hA, if_pos hB]
        exact ⟨Or.inr ⟨rfl, rfl⟩, Nat.le_refl 0⟩
      · unfold read
        rw [if_neg hA, if_neg hB]
        constructor
        · left
          show t.rx_buf_idx + 1 < t.rx_buf_len
          omega
        · show t.rx_buf_idx + 1 ≤ t.rx_buf_len
          omega

theorem c10_witness :
    wsC10.rx_buf_idx + 1 = wsC10.rx_buf_len ∧
    (read wsC10 = (wsC10.rx_buf.getD wsC10.rx_buf_idx 0,
       { wsC10 with rx_buf_idx := 0, rx_buf_len := 0 }) ∧
     (∀ t : WireState, t.rx_buf_idx ≤ t.rx_buf_len →
       ((read t).2.rx_buf_idx < (read t).2.rx_buf_len ∨
         ((read t).2.rx_buf_idx = 0 ∧ (read t).2.rx_buf_len = 0)) ∧
       (read t).2.rx_buf_idx ≤ (read t).2.rx_buf_len)) :=
  ⟨rfl, c10_last_byte wsC10 rfl⟩

end SoftWire
